import Mathlib

/-!
Verification of the txrho template engine (`txrho/template.py`).

The development shallowly embeds the parts of the module the claims are
about:

* `parse` embeds the module-level `_parse(reader, in_block)` function.  The
  `_TemplateReader` only ever exposes the unconsumed tail of the source to
  `_parse` (via `find`, `consume`, indexing), so the reader is modelled as
  the remaining list of characters; line numbers only feed error messages
  and are omitted from the error values.  Recursion is by explicit fuel
  (`_parse` recurses on a strictly shrinking input, which the fuel bounds).
* `bodyGen`/`fileAsync` embed the code generation of `_File.generate`,
  `_YieldBlock.generate` and the cyclone node classes, restricted to the
  single piece of state the claims are about: the `writer.inline_callbacks`
  flag, which every node's `generate` threads through the one shared writer
  object.  `ExtendsBlock`/`IncludeBlock` generation loads other templates
  through the loader; theorems about the flag therefore restrict to
  loader-free trees (`bodyLoaderFree`).
* `loadResolve`/`loaderLoad` embed `Loader.load` together with the posix
  path functions it calls (`os.path.join`, `os.path.normpath`,
  `os.path.dirname`).  `os.path.abspath` equals `normpath` on absolute
  inputs, and `Loader.load` only applies it to absolute paths whenever the
  loader root is absolute (cyclone's `Loader.__init__` absolutizes root).
* `templateGenerate` embeds `Template.generate`: namespace construction,
  the `assert "defer" not in kwargs` guard, `namespace.update(kwargs)` and
  `defer.maybeDeferred(execute)`.
-/

/-- Python `str.isspace` character class used by `str.strip()`. -/
def pyIsSpace (c : Char) : Bool :=
  c = ' ' || c = '\t' || c = '\n' || c = '\r' || c = '\x0b' || c = '\x0c'

/-- Python `str.lstrip()` on a character list. -/
def lstripL (cs : List Char) : List Char := cs.dropWhile pyIsSpace

/-- Python `str.rstrip()` on a character list. -/
def rstripL (cs : List Char) : List Char := (cs.reverse.dropWhile pyIsSpace).reverse

/-- Python `str.strip()` on a character list. -/
def stripL (cs : List Char) : List Char := rstripL (lstripL cs)

/-- Python `str.strip(c)` for a single strip character `c`. -/
def stripChar (c : Char) (cs : List Char) : List Char :=
  ((cs.dropWhile (· = c)).reverse.dropWhile (· = c)).reverse

/-- Python `contents.partition(" ")`, returning the part before the first
space and the part after it (the whole string and `""` when there is no
space), as used for `operator, space, suffix = contents.partition(" ")`. -/
def partitionSpace : List Char → List Char × List Char
  | [] => ([], [])
  | c :: rest =>
    if c = ' ' then ([], rest)
    else
      let p := partitionSpace rest
      (c :: p.1, p.2)

/-- The directive-scanning loop of `_parse`: starting from the current
reader position, find the index of the first `{` that is immediately
followed by `{` or `%`.  Returns `none` exactly when the Python loop takes
its EOF branch: either no further `{` exists, or the first candidate `{`
is the last remaining character (`curly + 1 == reader.remaining()`), which
in Python short-circuits straight to EOF handling. -/
def findSpecial : List Char → Option Nat
  | [] => none
  | [_] => none
  | a :: b :: rest =>
    if a = '{' && (b = '{' || b = '%') then some 0
    else (findSpecial (b :: rest)).map (· + 1)

/-- `reader.find(ab)` for a two-character token `ab` (`"}}"`, `"%}"`):
index of the first occurrence in the remaining input, `none` if absent. -/
def findSub2 (a b : Char) : List Char → Option Nat
  | [] => none
  | [_] => none
  | x :: y :: rest =>
    if x = a && y = b then some 0
    else (findSub2 a b (y :: rest)).map (· + 1)

/-- `cs` contains no adjacent `%}` pair (so `findSub2 '%' '}'` skips it). -/
def noEndTok : List Char → Bool
  | [] => true
  | [_] => true
  | x :: y :: rest => !(x = '%' && y = '}') && noEndTok (y :: rest)

/-- Syntax tree nodes built by `_parse`.  Names follow the Python classes:
`_Text`, `_Expression`, `_YieldBlock`, `_Statement`, `_ExtendsBlock`,
`_IncludeBlock`, `_IntermediateControlBlock`, `_ApplyBlock`, `_NamedBlock`,
`_ControlBlock`.  A body (`_ChunkList`) is a `List Node`. -/
inductive Node where
  | text (s : String)
  | expression (s : String)
  | yieldBlock (s : String)
  | statement (s : String)
  | extendsBlock (name : String)
  | includeBlock (name : String)
  | intermediate (s : String)
  | applyBlock (method : String) (body : List Node)
  | namedBlock (name : String) (body : List Node)
  | controlBlock (header : String) (body : List Node)

/-- The distinct `ParseError`s raised by `_parse`, one constructor per
`raise` site, carrying the data interpolated into the message (line
numbers omitted). -/
inductive ParseErr where
  | missingEndBlock (kind : String)
  | missingEndExpression
  | emptyExpression
  | missingEndBlockDelim
  | emptyBlockTag
  | intermediateOutsideBlock (op : String)
  | intermediateWrongParent (op : String) (kind : String)
  | extraEnd
  | extendsMissingPath
  | importMissingStatement
  | includeMissingPath
  | setMissingStatement
  | yieldMissingStatement
  | yieldInsideApply
  | applyMissingName
  | blockMissingName
  | unknownOperator (op : String)
  deriving Repr, DecidableEq

/-- Result of a `parse` call: the returned body plus the unconsumed rest of
the reader, an error, or fuel exhaustion (the Python recursion needs no
fuel; `parseTemplate` supplies more than enough). -/
inductive PResult where
  | ok (body : List Node) (rest : List Char)
  | err (e : ParseErr)
  | outOfFuel

/-- The `intermediate_blocks` dict of `_parse`: allowed parent kinds for
`else`/`elif`/`except`/`finally`, `none` for non-intermediate operators. -/
def intermediateParents (op : String) : Option (List String) :=
  if op = "else" then some ["if", "for", "while"]
  else if op = "elif" then some ["if"]
  else if op = "except" then some ["try"]
  else if op = "finally" then some ["try"]
  else none

/-- Embedding of `_parse(reader, in_block)`.  `cs` is the unconsumed
input, `inBlock` the `in_block` argument, `body` the chunk list
accumulated so far by the enclosing `while` loop (started as `[]`). -/
def parse : Nat → List Char → Option String → List Node → PResult
  | 0, _, _, _ => .outOfFuel
  | fuel + 1, cs, inBlock, body =>
    match findSpecial cs with
    | none =>
      -- EOF branch of the scanning loop
      match inBlock with
      | some k => .err (.missingEndBlock k)
      | none => .ok (body ++ [.text ⟨cs⟩]) []
    | some curly =>
      let body := if curly > 0 then body ++ [.text ⟨cs.take curly⟩] else body
      let cs1 := cs.drop curly
      let startBrace := cs1.take 2
      let cs2 := cs1.drop 2
      if startBrace = ['{', '{'] then
        -- Expression
        match findSub2 '}' '}' cs2 with
        | none => .err .missingEndExpression
        | some e =>
          if (cs2.take e).contains '\n' then .err .missingEndExpression
          else
            let contents := stripL (cs2.take e)
            let cs3 := cs2.drop (e + 2)
            if contents = [] then .err .emptyExpression
            else parse fuel cs3 inBlock (body ++ [.expression ⟨contents⟩])
      else
        -- Block; here startBrace is "{%" (asserted in the source)
        match findSub2 '%' '}' cs2 with
        | none => .err .missingEndBlockDelim
        | some e =>
          if (cs2.take e).contains '\n' then .err .missingEndBlockDelim
          else
            let contents := stripL (cs2.take e)
            let cs3 := cs2.drop (e + 2)
            if contents = [] then .err .emptyBlockTag
            else
              let operator : String := ⟨(partitionSpace contents).1⟩
              let suffix := stripL (partitionSpace contents).2
              match intermediateParents operator with
              | some allowed =>
                match inBlock with
                | none => .err (.intermediateOutsideBlock operator)
                | some k =>
                  if allowed.contains k then
                    parse fuel cs3 inBlock (body ++ [.intermediate ⟨contents⟩])
                  else .err (.intermediateWrongParent operator k)
              | none =>
                if operator = "end" then
                  match inBlock with
                  | none => .err .extraEnd
                  | some _ => .ok body cs3
                else if operator = "comment" then
                  parse fuel cs3 inBlock body
                else if operator = "extends" then
                  let path := stripChar '\'' (stripChar '"' suffix)
                  if path = [] then .err .extendsMissingPath
                  else parse fuel cs3 inBlock (body ++ [.extendsBlock ⟨path⟩])
                else if operator = "import" then
                  if suffix = [] then .err .importMissingStatement
                  else parse fuel cs3 inBlock (body ++ [.statement ⟨contents⟩])
                else if operator = "include" then
                  let path := stripChar '\'' (stripChar '"' suffix)
                  if path = [] then .err .includeMissingPath
                  else parse fuel cs3 inBlock (body ++ [.includeBlock ⟨path⟩])
                else if operator = "set" then
                  if suffix = [] then .err .setMissingStatement
                  else parse fuel cs3 inBlock (body ++ [.statement ⟨suffix⟩])
                else if operator = "yield" then
                  if suffix = [] then .err .yieldMissingStatement
                  else if inBlock = some "apply" then .err .yieldInsideApply
                  else parse fuel cs3 inBlock (body ++ [.yieldBlock ⟨contents⟩])
                else if operator = "apply" || operator = "block" || operator = "try" ||
                    operator = "if" || operator = "for" || operator = "while" then
                  match parse fuel cs3 (some operator) [] with
                  | .outOfFuel => .outOfFuel
                  | .err e2 => .err e2
                  | .ok blockBody rest =>
                    if operator = "apply" then
                      if suffix = [] then .err .applyMissingName
                      else parse fuel rest inBlock (body ++ [.applyBlock ⟨suffix⟩ blockBody])
                    else if operator = "block" then
                      if suffix = [] then .err .blockMissingName
                      else parse fuel rest inBlock (body ++ [.namedBlock ⟨suffix⟩ blockBody])
                    else
                      parse fuel rest inBlock (body ++ [.controlBlock ⟨contents⟩ blockBody])
                else .err (.unknownOperator operator)

/-- Top-level parse of a whole template source, as `Template.__init__`
invokes `_parse(reader)`: empty accumulated body, no enclosing block.  The
fuel `s.length + 1` is ample: every recursive step of `parse` first
consumes at least one directive (at least four characters). -/
def parseTemplate (s : String) : PResult :=
  parse (s.length + 1) s.data none []

mutual
/-- How generating one node acts on `writer.inline_callbacks`:
`_YieldBlock.generate` sets the flag to `True` after emitting its
expression; every composite node (`_ApplyBlock`, `_NamedBlock`,
`_ControlBlock`) generates its body with the same shared writer, so the
flag escapes those bodies — including `_ApplyBlock` bodies.  Leaf nodes
leave the flag alone.  `_ExtendsBlock`/`_IncludeBlock` generation loads
other templates through the loader; this model leaves the flag unchanged
for them, and theorems about the flag assume loader-free trees. -/
def nodeGen : Node → Bool → Bool
  | .yieldBlock _, _ => true
  | .applyBlock _ b, f => bodyGen b f
  | .namedBlock _ b, f => bodyGen b f
  | .controlBlock _ b, f => bodyGen b f
  | .text _, f => f
  | .expression _, f => f
  | .statement _, f => f
  | .extendsBlock _, f => f
  | .includeBlock _, f => f
  | .intermediate _, f => f

/-- `_ChunkList.generate`: generate each chunk in order with the one
shared writer, threading the `inline_callbacks` flag left to right. -/
def bodyGen : List Node → Bool → Bool
  | [], f => f
  | n :: rest, f => bodyGen rest (nodeGen n f)
end

/-- `_File.generate`: the body is generated first (flag initially absent,
`getattr(writer, "inline_callbacks", False)`), then the flag decides
whether `_execute` is decorated with `defer.inlineCallbacks`.  This is the
async flag of the compiled template. -/
def fileAsync (body : List Node) : Bool := bodyGen body false

mutual
/-- The tree contains no `extendsBlock`/`includeBlock` node (whose
generation would pull in other templates through the loader). -/
def nodeLoaderFree : Node → Bool
  | .extendsBlock _ => false
  | .includeBlock _ => false
  | .applyBlock _ b => bodyLoaderFree b
  | .namedBlock _ b => bodyLoaderFree b
  | .controlBlock _ b => bodyLoaderFree b
  | .text _ => true
  | .expression _ => true
  | .yieldBlock _ => true
  | .statement _ => true
  | .intermediate _ => true

def bodyLoaderFree : List Node → Bool
  | [] => true
  | n :: rest => nodeLoaderFree n && bodyLoaderFree rest
end

mutual
/-- Claim-side predicate: a `yieldBlock` occurs somewhere in the tree,
descending into every body (apply bodies included). -/
def nodeHasYield : Node → Bool
  | .yieldBlock _ => true
  | .applyBlock _ b => bodyHasYield b
  | .namedBlock _ b => bodyHasYield b
  | .controlBlock _ b => bodyHasYield b
  | .text _ => false
  | .expression _ => false
  | .statement _ => false
  | .extendsBlock _ => false
  | .includeBlock _ => false
  | .intermediate _ => false

def bodyHasYield : List Node → Bool
  | [] => false
  | n :: rest => nodeHasYield n || bodyHasYield rest
end

mutual
/-- Claim-side predicate: a `yieldBlock` occurs in the tree on a path that
does not cross an `applyBlock` boundary. -/
def nodeHasYieldOutsideApply : Node → Bool
  | .yieldBlock _ => true
  | .applyBlock _ _ => false
  | .namedBlock _ b => bodyHasYieldOutsideApply b
  | .controlBlock _ b => bodyHasYieldOutsideApply b
  | .text _ => false
  | .expression _ => false
  | .statement _ => false
  | .extendsBlock _ => false
  | .includeBlock _ => false
  | .intermediate _ => false

def bodyHasYieldOutsideApply : List Node → Bool
  | [] => false
  | n :: rest => nodeHasYieldOutsideApply n || bodyHasYieldOutsideApply rest
end

/-- The list starts with a `/`. -/
def startsSlash : List Char → Bool
  | '/' :: _ => true
  | _ => false

/-- Python `str.split('/')`, keeping empty parts. -/
def splitSlash : List Char → List (List Char)
  | [] => [[]]
  | c :: rest =>
    if c = '/' then [] :: splitSlash rest
    else
      match splitSlash rest with
      | [] => [[c]]
      | g :: gs => (c :: g) :: gs

/-- Python `'/'.join(...)`. -/
def intercalateSlash : List (List Char) → List Char
  | [] => []
  | [g] => g
  | g :: gs => g ++ '/' :: intercalateSlash gs

/-- `os.path.join(a, b)` (posix, two arguments): an absolute `b` discards
`a`; otherwise the parts are joined with `/` unless `a` is empty or
already ends in `/`. -/
def pjoin (a b : String) : String :=
  if startsSlash b.data then b
  else if a.data = [] || a.data.getLast? = some '/' then ⟨a.data ++ b.data⟩
  else ⟨a.data ++ '/' :: b.data⟩

/-- `os.path.normpath` (posixpath): collapse `//` and `.`, resolve `..`
against preceding components (dropping leading `..` at the root), keeping
the POSIX double-slash special case. -/
def normpath (p : String) : String :=
  if p.data = [] then "."
  else
    let leadSlashes : Nat :=
      match p.data with
      | '/' :: '/' :: '/' :: _ => 1
      | '/' :: '/' :: _ => 2
      | '/' :: _ => 1
      | _ => 0
    let comps := splitSlash p.data
    let newComps := comps.foldl
      (fun acc comp =>
        if comp = [] || comp = ['.'] then acc
        else if comp ≠ ['.', '.'] || (leadSlashes = 0 && acc = []) ||
            (acc ≠ [] && acc.getLast? = some ['.', '.']) then acc ++ [comp]
        else if acc ≠ [] then acc.dropLast
        else acc)
      ([] : List (List Char))
    let path := List.replicate leadSlashes '/' ++ intercalateSlash newComps
    if path = [] then "." else ⟨path⟩

/-- Index of the last `/` in the list, if any (`str.rfind('/')`). -/
def lastSlash : List Char → Option Nat
  | [] => none
  | c :: rest =>
    match lastSlash rest with
    | some i => some (i + 1)
    | none => if c = '/' then some 0 else none

/-- `os.path.dirname` (posixpath): everything before the last `/`, with
trailing slashes stripped unless the result is all slashes. -/
def dirname (p : String) : String :=
  let cs := p.data
  let i := match lastSlash cs with | some j => j + 1 | none => 0
  let head := cs.take i
  let head :=
    if head ≠ [] && !head.all (· = '/') then (head.reverse.dropWhile (· = '/')).reverse
    else head
  ⟨head⟩

/-- The path-resolution prelude of `Loader.load(name, parent_path)`
(template.py lines 92–100): when `parent_path` is truthy, does not start
with `<` or `/`, and `name` is relative, resolve `name` against
`parent_path`'s directory and adopt the tail of the result when the
normalized absolute path has `self.root` as a string prefix
(`relative_path.startswith(self.root)`, then
`relative_path[len(self.root) + 1:]`).  `os.path.abspath` is `normpath`
here because the loader root is absolute. -/
def loadResolve (root : String) (name : String) (parentPath : Option String) : String :=
  match parentPath with
  | none => name
  | some pp =>
    if pp ≠ "" && !(pp.data.take 1 = ['<']) && !startsSlash pp.data &&
        !startsSlash name.data then
      let currentPath := pjoin root pp
      let fileDir := dirname (normpath currentPath)
      let relativePath := normpath (pjoin fileDir name)
      if root.data.isPrefixOf relativePath.data then ⟨relativePath.data.drop (root.length + 1)⟩
      else name
    else name

/-- Directory containment: `p` is the root itself or lies strictly below
the root directory.  This is the spec's notion of "remains within the
sandbox root" (the code instead tests a string prefix). -/
def withinRoot (root p : String) : Bool :=
  p = root || (root.data ++ ['/']).isPrefixOf p.data

/-- A compiled template, as far as the claims are concerned: the parsed
tree and the compile-time async flag. -/
structure TmplModel where
  tree : List Node
  isAsync : Bool

/-- Errors surfacing from `Loader.load`: a missing file (`open` raising)
or a `ParseError` escaping `Template.__init__`; `fuelExhausted` is the
artifact of the fuel-based parser embedding. -/
inductive LoadErr where
  | fileNotFound (path : String)
  | parseError (e : ParseErr)
  | fuelExhausted

/-- The body of `Loader.load` after name resolution (template.py lines
101–107): look the resolved name up in `self.templates`; on a miss, read
`os.path.join(self.root, name)` from the file system `fs` and compile it,
assigning `self.templates[name]` only when `Template(...)` returns
normally — an exception leaves the cache untouched.  Returns the
call's outcome together with the cache afterwards. -/
def loaderLoad (fs : List (String × String)) (root : String)
    (cache : List (String × TmplModel)) (name : String) (parentPath : Option String) :
    Except LoadErr TmplModel × List (String × TmplModel) :=
  let rname := loadResolve root name parentPath
  match cache.lookup rname with
  | some t => (.ok t, cache)
  | none =>
    let path := pjoin root rname
    match fs.lookup path with
    | none => (.error (.fileNotFound path), cache)
    | some srcText =>
      match parseTemplate srcText with
      | .ok body _ => ((.ok ⟨body, fileAsync body⟩), (rname, ⟨body, fileAsync body⟩) :: cache)
      | .err e => (.error (.parseError e), cache)
      | .outOfFuel => (.error .fuelExhausted, cache)

/-- Values living in the generated code's namespace; only the engine's
`defer` module binding needs to be distinguishable. -/
inductive PyVal where
  | deferModule
  | escapeFn
  | urlEscapeFn
  | jsonEncodeFn
  | squeezeFn
  | datetimeModule
  | user (tag : String)
  deriving Repr, DecidableEq

/-- The namespace dict built at the top of `Template.generate` before
`namespace.update(kwargs)`. -/
def baseNs : List (String × PyVal) :=
  [("escape", .escapeFn), ("url_escape", .urlEscapeFn), ("json_encode", .jsonEncodeFn),
   ("squeeze", .squeezeFn), ("datetime", .datetimeModule), ("defer", .deferModule)]

/-- `d[k] = v` on an association-list dict: overwrite in place or append. -/
def setKey : List (String × PyVal) → String → PyVal → List (String × PyVal)
  | [], k, v => [(k, v)]
  | (k', v') :: rest, k, v =>
    if k' = k then (k, v) :: rest else (k', v') :: setKey rest k v

/-- Python `k in d` on an association-list dict (`"defer" in kwargs`). -/
def hasKey : List (String × PyVal) → String → Bool
  | [], _ => false
  | kv :: rest, k => kv.1 = k || hasKey rest k

/-- `namespace.update(kwargs)`: every kwargs entry overwrites. -/
def nsUpdate (ns kwargs : List (String × PyVal)) : List (String × PyVal) :=
  kwargs.foldl (fun acc kv => setKey acc kv.1 kv.2) ns

/-- The value channel of calling the generated `_execute`: a synchronous
`_execute` returns the rendered string; an `inlineCallbacks`-decorated one
returns a Deferred; either may raise. -/
inductive ExecOutcome where
  | value (s : String)
  | alreadyFired (r : Except String String)
  | raised (e : String)

/-- What `Template.generate` hands back to the caller. -/
inductive RenderReturn where
  | plainStr (s : String)
  | futureStr (r : Except String String)

/-- `defer.maybeDeferred(execute)`: a plain return value is wrapped into
an already-fired Deferred, a Deferred is passed through, an exception
becomes a failed Deferred.  The caller always receives a Deferred. -/
def maybeDeferred : ExecOutcome → RenderReturn
  | .value s => .futureStr (.ok s)
  | .alreadyFired r => .futureStr r
  | .raised e => .futureStr (.error e)

/-- The ways `Template.generate` itself can fail before rendering. -/
inductive GenError where
  | assertDeferOverride
  deriving Repr, DecidableEq

/-- Embedding of `Template.generate(**kwargs)`: build the namespace,
`assert "defer" not in kwargs` (an `AssertionError` before any template
code runs), `namespace.update(kwargs)`, then run the compiled `_execute`
(abstracted as `execute`, a function of the namespace it is exec'd in)
under `defer.maybeDeferred`. -/
def templateGenerate (kwargs : List (String × PyVal))
    (execute : List (String × PyVal) → ExecOutcome) : Except GenError RenderReturn :=
  if hasKey kwargs "defer" then .error .assertDeferOverride
  else .ok (maybeDeferred (execute (nsUpdate baseNs kwargs)))

/-- The value channel of the generated `_execute` for a compiled template:
`_File.generate` emits a plain function returning the joined buffer when
the async flag is off, and an `inlineCallbacks` generator (whose call
yields a Deferred) when it is on; `s` abstracts the rendered string. -/
def execOutcomeShape (t : TmplModel) (s : String) : ExecOutcome :=
  if t.isAsync then .alreadyFired (.ok s) else .value s

mutual
/-- Generating a node sets `inline_callbacks` iff it was already set or a
yield occurs anywhere inside the node, apply bodies included. -/
theorem nodeGen_eq_or (n : Node) (f : Bool) : nodeGen n f = (f || nodeHasYield n) := by
  cases n with
  | yieldBlock s => simp [nodeGen, nodeHasYield]
  | applyBlock m b => simp [nodeGen, nodeHasYield, bodyGen_eq_or b f]
  | namedBlock m b => simp [nodeGen, nodeHasYield, bodyGen_eq_or b f]
  | controlBlock m b => simp [nodeGen, nodeHasYield, bodyGen_eq_or b f]
  | text s => simp [nodeGen, nodeHasYield]
  | expression s => simp [nodeGen, nodeHasYield]
  | statement s => simp [nodeGen, nodeHasYield]
  | extendsBlock s => simp [nodeGen, nodeHasYield]
  | includeBlock s => simp [nodeGen, nodeHasYield]
  | intermediate s => simp [nodeGen, nodeHasYield]

/-- List version of `nodeGen_eq_or`. -/
theorem bodyGen_eq_or (b : List Node) (f : Bool) : bodyGen b f = (f || bodyHasYield b) := by
  cases b with
  | nil => simp [bodyGen, bodyHasYield]
  | cons n rest =>
    rw [bodyGen, nodeGen_eq_or n f, bodyGen_eq_or rest, bodyHasYield]
    simp [Bool.or_assoc]
end

mutual
/-- A yield reachable without crossing an apply boundary is a yield. -/
theorem nodeHasYield_of_outside (n : Node) (h : nodeHasYieldOutsideApply n = true) :
    nodeHasYield n = true := by
  cases n with
  | yieldBlock s => simp [nodeHasYield]
  | applyBlock m b => simp [nodeHasYieldOutsideApply] at h
  | namedBlock m b =>
    simp only [nodeHasYieldOutsideApply] at h
    simp only [nodeHasYield]
    exact bodyHasYield_of_outside b h
  | controlBlock m b =>
    simp only [nodeHasYieldOutsideApply] at h
    simp only [nodeHasYield]
    exact bodyHasYield_of_outside b h
  | text s => simp [nodeHasYieldOutsideApply] at h
  | expression s => simp [nodeHasYieldOutsideApply] at h
  | statement s => simp [nodeHasYieldOutsideApply] at h
  | extendsBlock s => simp [nodeHasYieldOutsideApply] at h
  | includeBlock s => simp [nodeHasYieldOutsideApply] at h
  | intermediate s => simp [nodeHasYieldOutsideApply] at h

/-- List version of `nodeHasYield_of_outside`. -/
theorem bodyHasYield_of_outside (b : List Node) (h : bodyHasYieldOutsideApply b = true) :
    bodyHasYield b = true := by
  cases b with
  | nil => simp [bodyHasYieldOutsideApply] at h
  | cons n rest =>
    simp only [bodyHasYieldOutsideApply, Bool.or_eq_true] at h
    simp only [bodyHasYield, Bool.or_eq_true]
    rcases h with h | h
    · exact Or.inl (nodeHasYield_of_outside n h)
    · exact Or.inr (bodyHasYield_of_outside rest h)
end

/-- The character `{` as a one-character string, for assembling template
sources. -/
def lb : String := "\x7b"

/-- The character `}` as a one-character string. -/
def rb : String := "\x7d"

/-- Template source with a yield nested two levels inside an apply block:
an `if` level sits between the `apply` and the `yield`. -/
def srcYieldDeepInApply : String :=
  lb ++ "% apply f %" ++ rb ++ lb ++ "% if x %" ++ rb ++ lb ++ "% yield y %" ++ rb ++
    lb ++ "% end %" ++ rb ++ lb ++ "% end %" ++ rb

/-- The tree `parseTemplate` produces for `srcYieldDeepInApply`. -/
def treeYieldDeepInApply : List Node :=
  [.applyBlock "f" [.controlBlock "if x" [.yieldBlock "yield y"]], .text ""]

/-- Template source with a yield directly inside an apply block. -/
def srcYieldDirectInApply : String :=
  lb ++ "% apply f %" ++ rb ++ lb ++ "% yield x %" ++ rb ++ lb ++ "% end %" ++ rb

/-- C1: the claim says a `yield` anywhere inside an `apply` block, at any
nesting depth, fails with `YieldInsideApply`.  The code only compares the
immediately enclosing block kind (`in_block == "apply"`), so with an `if`
level in between the template parses successfully; only the directly
nested yield is rejected.  This contradicts the claim (and the generated
code for the accepted template places a bare `yield` expression inside the
synchronous apply sub-function, breaking it). -/
theorem c1_deep_yield_in_apply_accepted :
    parseTemplate srcYieldDeepInApply = .ok treeYieldDeepInApply [] ∧
    parseTemplate srcYieldDirectInApply = .err .yieldInsideApply :=
  ⟨rfl, rfl⟩

/-- Template source consisting of a single top-level yield directive. -/
def srcYieldTop : String := lb ++ "% yield x %" ++ rb

/-- The tree `parseTemplate` produces for `srcYieldTop`. -/
def treeYieldTop : List Node := [.yieldBlock "yield x", .text ""]

/-- C2: for a parsed, loader-free template tree, a yield outside every
apply block forces the compiled procedure's async flag on, and a template
with no yield at all compiles with the flag off. -/
theorem c2_async_iff_yield (src : String) (body : List Node)
    (_hp : parseTemplate src = .ok body [])
    (_hl : bodyLoaderFree body = true) :
    (bodyHasYieldOutsideApply body = true → fileAsync body = true) ∧
    (bodyHasYield body = false → fileAsync body = false) := by
  refine ⟨fun h => ?_, fun h => ?_⟩
  · rw [fileAsync, bodyGen_eq_or]
    simp [bodyHasYield_of_outside body h]
  · rw [fileAsync, bodyGen_eq_or]
    simp [h]

/-- C2 witness: `srcYieldTop` compiles asynchronous, plain text compiles
synchronous. -/
theorem c2_async_iff_yield_witness :
    fileAsync treeYieldTop = true ∧ fileAsync [Node.text "hello"] = false :=
  ⟨(c2_async_iff_yield srcYieldTop treeYieldTop rfl rfl).1 rfl,
   (c2_async_iff_yield "hello" [Node.text "hello"] rfl rfl).2 rfl⟩

/-- C3 counterexample: the claim says a yield inside an apply body never
makes any enclosing body (or the compiled procedure) asynchronous.  In the
code the `inline_callbacks` flag lives on the single shared writer and
`_ApplyBlock.generate` generates its body with that same writer, so the
yield nested inside the apply block of `srcYieldDeepInApply` switches the
top-level procedure to asynchronous even though no yield is reachable
outside an apply boundary. -/
theorem c3_apply_not_isolated :
    parseTemplate srcYieldDeepInApply = .ok treeYieldDeepInApply [] ∧
    bodyHasYieldOutsideApply treeYieldDeepInApply = false ∧
    fileAsync treeYieldDeepInApply = true :=
  ⟨rfl, rfl, rfl⟩

/-- C3 amended: the async flag of a loader-free body is simply "a yield
occurs anywhere in the tree", computed through every body including apply
bodies — apply blocks do not isolate their internal asynchrony. -/
theorem c3_amended_flag_eq_hasYield (body : List Node)
    (_hl : bodyLoaderFree body = true) :
    fileAsync body = bodyHasYield body := by
  rw [fileAsync, bodyGen_eq_or]
  simp

/-- C3 amended witness. -/
theorem c3_amended_flag_eq_hasYield_witness :
    fileAsync treeYieldDeepInApply = bodyHasYield treeYieldDeepInApply :=
  c3_amended_flag_eq_hasYield treeYieldDeepInApply rfl

/-- C4 counterexample: the claim says a Template whose async flag is false
renders to a plain string, not a future.  `Template.generate` always
returns `defer.maybeDeferred(execute)` — a Deferred — even for the fully
synchronous template `"hello"` (whose flag is false); the module docstring
itself states "Template.generate returns a deferred". -/
theorem c4_sync_render_still_deferred :
    parseTemplate "hello" = .ok [Node.text "hello"] [] ∧
    fileAsync [Node.text "hello"] = false ∧
    templateGenerate [] (fun _ => execOutcomeShape ⟨[Node.text "hello"], false⟩ "hello") =
      .ok (.futureStr (.ok "hello")) ∧
    templateGenerate [] (fun _ => execOutcomeShape ⟨[Node.text "hello"], false⟩ "hello") ≠
      .ok (.plainStr "hello") := by
  refine ⟨rfl, rfl, rfl, fun h => ?_⟩
  exact RenderReturn.noConfusion (Except.ok.inj h)

/-- C4 amended: `Template.generate` always hands the caller a future of a
string (for a synchronous tree it is an already-fired future); only the
shape of the generated `_execute` procedure differs with the async flag. -/
theorem c4_amended_always_future (kwargs : List (String × PyVal))
    (execute : List (String × PyVal) → ExecOutcome) (r : RenderReturn)
    (h : templateGenerate kwargs execute = .ok r) :
    ∃ d, r = .futureStr d := by
  rw [templateGenerate] at h
  split at h
  · exact absurd h (by simp)
  · cases hx : execute (nsUpdate baseNs kwargs) with
    | value s =>
      refine ⟨.ok s, ?_⟩
      have := Except.ok.inj h
      rw [hx] at this
      exact this.symm
    | alreadyFired d =>
      refine ⟨d, ?_⟩
      have := Except.ok.inj h
      rw [hx] at this
      exact this.symm
    | raised e =>
      refine ⟨.error e, ?_⟩
      have := Except.ok.inj h
      rw [hx] at this
      exact this.symm

/-- C4 amended witness. -/
theorem c4_amended_always_future_witness :
    ∃ d, RenderReturn.futureStr (Except.ok "a") = RenderReturn.futureStr d :=
  c4_amended_always_future [] (fun _ => .value "a") (.futureStr (.ok "a")) rfl

/-- C5: the claim says a resolved relative name is adopted only when the
normalized absolute path stays within the sandbox root, and that no
adopted resolution ever escapes the root.  The code tests
`relative_path.startswith(self.root)` — a string prefix, not directory
containment.  With root `/app/tmpl`, parent `t.html` and name
`../tmplX/y`, the resolved path `/app/tmplX/y` lies outside the root yet
passes the prefix test; the adopted name is the slice `/y`, and the
loader's subsequent `os.path.join(root, name)` discards the root for the
absolute `/y` — the loader reads `/y`, escaping the sandbox.  A sibling
directory `tmpl_evil` is silently rewritten into the root the same way. -/
theorem c5_prefix_check_escapes_root :
    loadResolve "/app/tmpl" "../tmplX/y" (some "t.html") = "/y" ∧
    withinRoot "/app/tmpl"
      (normpath (pjoin (dirname (normpath (pjoin "/app/tmpl" "t.html"))) "../tmplX/y")) = false ∧
    pjoin "/app/tmpl" (loadResolve "/app/tmpl" "../tmplX/y" (some "t.html")) = "/y" ∧
    withinRoot "/app/tmpl" "/y" = false ∧
    loadResolve "/app/tmpl" "../tmpl_evil/x" (some "t.html") = "evil/x" :=
  ⟨rfl, rfl, rfl, rfl, rfl⟩


/-- Overwriting one key leaves lookups of a different key unchanged. -/
theorem lookup_setKey_ne (ns : List (String × PyVal)) (k' : String) (v : PyVal)
    (k : String) (h : k' ≠ k) : (setKey ns k' v).lookup k = ns.lookup k := by
  have hb : (k == k') = false := beq_eq_false_iff_ne.mpr (Ne.symm h)
  induction ns with
  | nil => simp [setKey, List.lookup, hb]
  | cons kv rest ih =>
    rw [setKey]
    split
    · rename_i heq
      have hb2 : (k == kv.1) = false := by rw [heq]; exact hb
      simp [List.lookup, hb, hb2]
    · simp only [List.lookup]
      cases hkv : (k == kv.1)
      · simpa [hkv] using ih
      · simp [hkv]

/-- `namespace.update(kwargs)` leaves the `defer` binding alone when
`kwargs` has no `defer` key. -/
theorem lookup_nsUpdate_defer (kwargs : List (String × PyVal)) :
    ∀ ns : List (String × PyVal), hasKey kwargs "defer" = false →
    (nsUpdate ns kwargs).lookup "defer" = ns.lookup "defer" := by
  induction kwargs with
  | nil => intro ns _; rfl
  | cons kv rest ih =>
    intro ns h
    rw [hasKey, Bool.or_eq_false_iff] at h
    rcases h with ⟨h1, h2⟩
    rw [nsUpdate, List.foldl_cons]
    have step := ih (setKey ns kv.1 kv.2) h2
    rw [nsUpdate] at step
    rw [step]
    exact lookup_setKey_ne ns kv.1 kv.2 "defer" (by simpa using h1)

/-- C10: a `defer` key in the caller's context makes `Template.generate`
fail on its `assert "defer" not in kwargs` before any template code runs;
otherwise `namespace.update(kwargs)` cannot displace the engine's own
`defer` module binding, which is what the generated rendering code sees. -/
theorem c10_defer_not_overridable (kwargs : List (String × PyVal))
    (execute : List (String × PyVal) → ExecOutcome) :
    (hasKey kwargs "defer" = true →
      templateGenerate kwargs execute = .error .assertDeferOverride) ∧
    (hasKey kwargs "defer" = false →
      (nsUpdate baseNs kwargs).lookup "defer" = some .deferModule) := by
  constructor
  · intro h
    rw [templateGenerate, h]
    rfl
  · intro h
    rw [lookup_nsUpdate_defer kwargs baseNs h]
    rfl

/-- C10 witness. -/
theorem c10_defer_not_overridable_witness :
    templateGenerate [("defer", PyVal.user "boom")] (fun _ => ExecOutcome.value "x") =
      .error .assertDeferOverride ∧
    (nsUpdate baseNs [("title", PyVal.user "t")]).lookup "defer" = some .deferModule :=
  ⟨(c10_defer_not_overridable [("defer", PyVal.user "boom")]
      (fun _ => ExecOutcome.value "x")).1 rfl,
   (c10_defer_not_overridable [("title", PyVal.user "t")]
      (fun _ => ExecOutcome.value "x")).2 rfl⟩

/-- At end of input (`findSpecial` finds no further directive) with an
enclosing block open, `_parse` raises the unterminated-block error naming
that block's kind. -/
theorem parse_eof_open (fuel : Nat) (cs : List Char) (k : String) (body : List Node)
    (h : findSpecial cs = none) :
    parse (fuel + 1) cs (some k) body = .err (.missingEndBlock k) := by
  simp only [parse, h]

/-- At end of input with no enclosing block, `_parse` appends the
remaining text and returns the accumulated body, consuming everything. -/
theorem parse_eof_top (fuel : Nat) (cs : List Char) (body : List Node)
    (h : findSpecial cs = none) :
    parse (fuel + 1) cs none body = .ok (body ++ [.text ⟨cs⟩]) [] := by
  simp only [parse, h]

set_option maxHeartbeats 4000000 in
/-- Shape of every normal return of a top-level (`in_block = None`) parse:
it can only arise from the end-of-input branch, so the whole input is
consumed and the returned body ends with the trailing text chunk. -/
theorem parse_none_ok (fuel : Nat) :
    ∀ cs body out rest, parse fuel cs none body = .ok out rest →
      rest = [] ∧ ∃ pre t, out = pre ++ [Node.text t] := by
  induction fuel with
  | zero =>
    intro cs body out rest h
    exact PResult.noConfusion h
  | succ fuel ih =>
    intro cs body out rest h
    simp only [parse] at h
    split at h
    · injection h with h1 h2
      exact ⟨h2.symm, _, _, h1.symm⟩
    · rename_i curly hfs
      by_cases hbr : List.take 2 (List.drop curly cs) = ['\x7b', '\x7b']
      · rw [if_pos hbr] at h
        rcases hsub : findSub2 '\x7d' '\x7d' (List.drop 2 (List.drop curly cs)) with _ | e
        · rw [hsub] at h
          exact PResult.noConfusion h
        · simp only [hsub] at h
          by_cases hnl : (List.take e (List.drop 2 (List.drop curly cs))).contains '\n' = true
          · rw [if_pos hnl] at h
            exact PResult.noConfusion h
          · rw [if_neg hnl] at h
            by_cases hst : stripL (List.take e (List.drop 2 (List.drop curly cs))) = []
            · rw [if_pos hst] at h
              exact PResult.noConfusion h
            · rw [if_neg hst] at h
              exact ih _ _ _ _ h
      · rw [if_neg hbr] at h
        rcases hsub : findSub2 '%' '\x7d' (List.drop 2 (List.drop curly cs)) with _ | e
        · rw [hsub] at h
          exact PResult.noConfusion h
        · simp only [hsub] at h
          by_cases hnl : (List.take e (List.drop 2 (List.drop curly cs))).contains '\n' = true
          · rw [if_pos hnl] at h
            exact PResult.noConfusion h
          · rw [if_neg hnl] at h
            by_cases hst : stripL (List.take e (List.drop 2 (List.drop curly cs))) = []
            · rw [if_pos hst] at h
              exact PResult.noConfusion h
            · rw [if_neg hst] at h
              rcases hip : intermediateParents
                  ⟨(partitionSpace (stripL (List.take e (List.drop 2 (List.drop curly cs))))).1⟩
                  with _ | allowed
              · simp only [hip] at h
                set op : String :=
                  ⟨(partitionSpace (stripL (List.take e (List.drop 2 (List.drop curly cs))))).1⟩
                  with hop
                set sfx : List Char :=
                  stripL (partitionSpace (stripL (List.take e (List.drop 2 (List.drop curly cs))))).2
                  with hsfx
                set cs3 : List Char := List.drop (e + 2) (List.drop 2 (List.drop curly cs))
                  with hcs3
                set body1 : List Node :=
                  if curly > 0 then body ++ [Node.text ⟨List.take curly cs⟩] else body
                  with hbody1
                by_cases h1 : op = "end"
                · rw [if_pos h1] at h
                  exact PResult.noConfusion h
                · rw [if_neg h1] at h
                  by_cases h2 : op = "comment"
                  · rw [if_pos h2] at h
                    exact ih _ _ _ _ h
                  · rw [if_neg h2] at h
                    by_cases h3 : op = "extends"
                    · rw [if_pos h3] at h
                      by_cases h3a : stripChar '\'' (stripChar '"' sfx) = []
                      · rw [if_pos h3a] at h
                        exact PResult.noConfusion h
                      · rw [if_neg h3a] at h
                        exact ih _ _ _ _ h
                    · rw [if_neg h3] at h
                      by_cases h4 : op = "import"
                      · rw [if_pos h4] at h
                        by_cases h4a : sfx = []
                        · rw [if_pos h4a] at h
                          exact PResult.noConfusion h
                        · rw [if_neg h4a] at h
                          exact ih _ _ _ _ h
                      · rw [if_neg h4] at h
                        by_cases h5 : op = "include"
                        · rw [if_pos h5] at h
                          by_cases h5a : stripChar '\'' (stripChar '"' sfx) = []
                          · rw [if_pos h5a] at h
                            exact PResult.noConfusion h
                          · rw [if_neg h5a] at h
                            exact ih _ _ _ _ h
                        · rw [if_neg h5] at h
                          by_cases h6 : op = "set"
                          · rw [if_pos h6] at h
                            by_cases h6a : sfx = []
                            · rw [if_pos h6a] at h
                              exact PResult.noConfusion h
                            · rw [if_neg h6a] at h
                              exact ih _ _ _ _ h
                          · rw [if_neg h6] at h
                            by_cases h7 : op = "yield"
                            · rw [if_pos h7] at h
                              by_cases h7a : sfx = []
                              · rw [if_pos h7a] at h
                                exact PResult.noConfusion h
                              · rw [if_neg h7a, if_neg (fun hx => Option.noConfusion hx)] at h
                                exact ih _ _ _ _ h
                            · rw [if_neg h7] at h
                              by_cases h8 : (decide (op = "apply") || decide (op = "block") ||
                                  decide (op = "try") || decide (op = "if") ||
                                  decide (op = "for") || decide (op = "while")) = true
                              · rw [if_pos h8] at h
                                cases hrec : parse fuel cs3 (some op) [] with
                                | outOfFuel =>
                                  simp only [hrec] at h
                                  exact PResult.noConfusion h
                                | err e2 =>
                                  simp only [hrec] at h
                                  exact PResult.noConfusion h
                                | ok bb rr =>
                                  simp only [hrec] at h
                                  by_cases h9 : op = "apply"
                                  · rw [if_pos h9] at h
                                    by_cases h9a : sfx = []
                                    · rw [if_pos h9a] at h
                                      exact PResult.noConfusion h
                                    · rw [if_neg h9a] at h
                                      exact ih _ _ _ _ h
                                  · rw [if_neg h9] at h
                                    by_cases h10 : op = "block"
                                    · rw [if_pos h10] at h
                                      by_cases h10a : sfx = []
                                      · rw [if_pos h10a] at h
                                        exact PResult.noConfusion h
                                      · rw [if_neg h10a] at h
                                        exact ih _ _ _ _ h
                                    · rw [if_neg h10] at h
                                      exact ih _ _ _ _ h
                              · rw [if_neg h8] at h
                                exact PResult.noConfusion h
              · simp only [hip] at h
                exact PResult.noConfusion h

/-- C8: a cache miss whose compilation fails leaves `Loader.load`'s cache
exactly as it was and surfaces the parse error; and whenever the cache
changes at all, the change is one new entry holding a successfully
compiled template, which is also the call's return value. -/
theorem c8_no_partial_cache (fs : List (String × String)) (root : String)
    (cache : List (String × TmplModel)) (name : String) (pp : Option String) :
    (∀ src e, cache.lookup (loadResolve root name pp) = none →
      fs.lookup (pjoin root (loadResolve root name pp)) = some src →
      parseTemplate src = .err e →
      loaderLoad fs root cache name pp = (.error (.parseError e), cache)) ∧
    (∀ r c', loaderLoad fs root cache name pp = (r, c') →
      c' = cache ∨
      ∃ t src, r = .ok t ∧ c' = (loadResolve root name pp, t) :: cache ∧
        fs.lookup (pjoin root (loadResolve root name pp)) = some src ∧
        parseTemplate src = .ok t.tree [] ∧ t.isAsync = fileAsync t.tree) := by
  constructor
  · intro src e hmiss hfs hparse
    simp only [loaderLoad, hmiss, hfs, hparse]
  · intro r c' h
    simp only [loaderLoad] at h
    split at h
    · exact Or.inl (Prod.mk.inj h).2.symm
    · split at h
      · exact Or.inl (Prod.mk.inj h).2.symm
      · rename_i src hfs
        split at h
        · rename_i body rest hparse
          have hshape := parse_none_ok _ _ _ _ _ hparse
          refine Or.inr ⟨⟨body, fileAsync body⟩, src, (Prod.mk.inj h).1.symm,
            (Prod.mk.inj h).2.symm, hfs, ?_, rfl⟩
          rw [hshape.1] at hparse
          exact hparse
        · exact Or.inl (Prod.mk.inj h).2.symm
        · exact Or.inl (Prod.mk.inj h).2.symm

/-- C8 witness: with an empty cache, a file whose source is the lone
unterminated token does not get cached; a file with plain text does. -/
theorem c8_no_partial_cache_witness :
    loaderLoad [("/r/x", lb ++ "%")] "/r" [] "x" none =
      (.error (.parseError .missingEndBlockDelim), []) :=
  (c8_no_partial_cache [("/r/x", lb ++ "%")] "/r" [] "x" none).1 (lb ++ "%")
    .missingEndBlockDelim rfl rfl rfl

/-- C6: hitting end of input with an enclosing block still open is exactly
the unterminated-block failure, naming the open block's kind; with no
enclosing block it appends the trailing text and returns — and that
end-of-input branch is the only way a top-level parse returns normally
(every normal result has consumed all input and ends in the trailing text
chunk). -/
theorem c6_unterminated_block (fuel : Nat) (cs : List Char) (body : List Node) :
    (∀ k, findSpecial cs = none →
      parse (fuel + 1) cs (some k) body = .err (.missingEndBlock k)) ∧
    (findSpecial cs = none →
      parse (fuel + 1) cs none body = .ok (body ++ [.text ⟨cs⟩]) []) ∧
    (∀ out rest, parse (fuel + 1) cs none body = .ok out rest →
      rest = [] ∧ ∃ pre t, out = pre ++ [Node.text t]) :=
  ⟨fun k h => parse_eof_open fuel cs k body h,
   fun h => parse_eof_top fuel cs body h,
   fun out rest h => parse_none_ok (fuel + 1) cs body out rest h⟩

/-- C6 witness. -/
theorem c6_unterminated_block_witness :
    parse 1 "tail".data (some "if") [] = .err (.missingEndBlock "if") ∧
    parse 1 "tail".data none [] = .ok [Node.text "tail"] [] ∧
    (([] : List Char) = [] ∧ ∃ pre t, [Node.text "tail"] = pre ++ [Node.text t]) :=
  ⟨(c6_unterminated_block 0 "tail".data []).1 "if" rfl,
   (c6_unterminated_block 0 "tail".data []).2.1 rfl,
   (c6_unterminated_block 0 "tail".data []).2.2 [Node.text "tail"] []
     ((c6_unterminated_block 0 "tail".data []).2.1 rfl)⟩

/-- The unconsumed reader content when the next directive is
`{% <op> %}` (single spaces around the operator) followed by `rest`. -/
def interDir (op : String) (rest : List Char) : List Char :=
  '{' :: '%' :: ' ' :: (op.data ++ ' ' :: '%' :: '}' :: rest)

/-- C7: an intermediate directive (`else`, `elif`, `except`, `finally`)
fails with the misplaced-intermediate-block error when no block is open;
with an open block it is accepted — appended as an
`_IntermediateControlBlock` without opening a new nesting level — exactly
when the enclosing kind lies in the operator's allowed-parent set
(`else`/`elif` → if, `else` also for/while, `except`/`finally` → try),
and fails with the misplaced-intermediate-block error otherwise.  In
particular `else` directly inside `try` fails. -/
theorem c7_intermediate_placement (op : String)
    (hop : op = "else" ∨ op = "elif" ∨ op = "except" ∨ op = "finally")
    (rest : List Char) (body : List Node) (fuel : Nat) :
    (parse (fuel + 1) (interDir op rest) none body =
      .err (.intermediateOutsideBlock op)) ∧
    (∀ ps k, intermediateParents op = some ps →
      parse (fuel + 1) (interDir op rest) (some k) body =
        if ps.contains k then parse fuel rest (some k) (body ++ [.intermediate op])
        else .err (.intermediateWrongParent op k)) := by
  rcases hop with h | h | h | h <;> subst h <;>
    refine ⟨rfl, fun ps k hip => ?_⟩ <;>
    · have hps := Option.some.inj hip
      subst hps
      rfl

/-- C7 witness: `else` with no open block, and `else` directly inside
`try`, both rejected. -/
theorem c7_intermediate_placement_witness :
    parse 1 (interDir "else" []) none [] = .err (.intermediateOutsideBlock "else") ∧
    parse 1 (interDir "else" []) (some "try") [] =
      .err (.intermediateWrongParent "else" "try") :=
  ⟨(c7_intermediate_placement "else" (Or.inl rfl) [] [] 0).1,
   ((c7_intermediate_placement "else" (Or.inl rfl) [] [] 0).2
      ["if", "for", "while"] "try" rfl).trans (by rfl)⟩

/-- A cons with a non-`%` head preserves freedom from `%\x7d` pairs. -/
theorem noEndTok_cons (c : Char) (l : List Char) (hc : ¬c = '%') (h : noEndTok l = true) :
    noEndTok (c :: l) = true := by
  cases l with
  | nil => rfl
  | cons d l2 =>
    simp only [noEndTok, Bool.and_eq_true, Bool.not_eq_eq_eq_not, Bool.not_true] at h ⊢
    constructor
    · simp [hc]
    · exact h

theorem findSub2_marker : ∀ (s t : List Char), noEndTok s = true →
    findSub2 '%' '\x7d' (s ++ ' ' :: '%' :: '\x7d' :: t) = some (s.length + 1) := by
  intro s
  induction s with
  | nil => intro t _; rfl
  | cons c s ih =>
    intro t h
    cases s with
    | nil =>
      have h2 : findSub2 '%' '\x7d' ([' '] ++ ' ' :: '%' :: '\x7d' :: t) = some 2 := rfl
      show findSub2 '%' '\x7d' (c :: ' ' :: '%' :: '\x7d' :: t) = some 2
      rw [findSub2]
      have hcond : (c = '%' && (' ' : Char) = '\x7d') = false := by simp
      rw [hcond]
      rfl
    | cons d s2 =>
      simp only [noEndTok, Bool.and_eq_true] at h
      show findSub2 '%' '\x7d' (c :: d :: (s2 ++ ' ' :: '%' :: '\x7d' :: t)) = some (s2.length + 3)
      rw [findSub2]
      have hcond : (c = '%' && d = '\x7d') = false := by
        have h1 := h.1
        cases hb : (c = '%' && d = '\x7d')
        · rfl
        · rw [hb] at h1
          simp at h1
      rw [hcond]
      have hrec := ih t (by simpa using h.2)
      simp only [List.cons_append] at hrec
      simp [hrec]


theorem rstripL_cons_nonspace (c : Char) (l : List Char) (hc : pyIsSpace c = false) :
    rstripL (c :: l) = c :: rstripL l := by
  unfold rstripL
  rw [List.reverse_cons, List.dropWhile_append]
  cases hd : (List.dropWhile pyIsSpace l.reverse).isEmpty
  · simp
  · rw [List.isEmpty_iff] at hd
    simp [List.dropWhile, hc, hd]

theorem rstripL_cons_shape (c : Char) (l : List Char) :
    rstripL (c :: l) = [] ∨ ∃ w, rstripL (c :: l) = c :: w := by
  unfold rstripL
  rw [List.reverse_cons, List.dropWhile_append]
  cases hd : (List.dropWhile pyIsSpace l.reverse).isEmpty
  · right
    exact ⟨(List.dropWhile pyIsSpace l.reverse).reverse, by simp⟩
  · rw [List.isEmpty_iff] at hd
    cases hc : pyIsSpace c
    · right
      refine ⟨[], ?_⟩
      simp [List.dropWhile, hc, hd]
    · left
      simp [List.dropWhile, hc, hd]

theorem partitionSpace_endTok (R : List Char) (h : R = [] ∨ ∃ w, R = ' ' :: w) :
    (partitionSpace ('e' :: 'n' :: 'd' :: R)).1 = ['e', 'n', 'd'] := by
  rcases h with h | ⟨w, h⟩ <;> subst h <;> rfl


def endDir (sfx rest : List Char) : List Char :=
  '\x7b' :: '%' :: ' ' :: 'e' :: 'n' :: 'd' :: ' ' :: (sfx ++ ' ' :: '%' :: '\x7d' :: rest)

set_option maxHeartbeats 1000000 in
theorem parse_endDir (sfx rest : List Char) (body : List Node) (fuel : Nat)
    (ib : Option String) (hs : noEndTok sfx = true) (hn : sfx.contains '\n' = false) :
    parse (fuel + 1) (endDir sfx rest) ib body =
      match ib with
      | some _ => .ok body rest
      | none => .err .extraEnd := by
  have hfs : findSpecial ('\x7b' :: '%' :: ' ' :: 'e' :: 'n' :: 'd' :: ' ' ::
      (sfx ++ ' ' :: '%' :: '\x7d' :: rest)) = some 0 := rfl
  have hsfull : noEndTok (' ' :: 'e' :: 'n' :: 'd' :: ' ' :: sfx) = true := by
    refine noEndTok_cons _ _ (by decide) ?_
    refine noEndTok_cons _ _ (by decide) ?_
    refine noEndTok_cons _ _ (by decide) ?_
    refine noEndTok_cons _ _ (by decide) ?_
    exact noEndTok_cons _ _ (by decide) hs
  have hfind : findSub2 '%' '\x7d'
      (' ' :: 'e' :: 'n' :: 'd' :: ' ' :: (sfx ++ ' ' :: '%' :: '\x7d' :: rest)) =
      some (sfx.length + 6) := by
    have h0 := findSub2_marker (' ' :: 'e' :: 'n' :: 'd' :: ' ' :: sfx) rest hsfull
    simp only [List.cons_append, List.length_cons] at h0
    exact h0
  have htake0 : ((' ' :: 'e' :: 'n' :: 'd' :: ' ' :: sfx) ++ ' ' :: '%' :: '\x7d' :: rest).take
      ((' ' :: 'e' :: 'n' :: 'd' :: ' ' :: sfx).length + 1) =
      (' ' :: 'e' :: 'n' :: 'd' :: ' ' :: sfx) ++ (' ' :: '%' :: '\x7d' :: rest).take 1 :=
    List.take_append 1
  have htake : List.take (sfx.length + 6)
      (' ' :: 'e' :: 'n' :: 'd' :: ' ' :: (sfx ++ ' ' :: '%' :: '\x7d' :: rest)) =
      ' ' :: 'e' :: 'n' :: 'd' :: ' ' :: (sfx ++ [' ']) := by
    simpa using htake0
  have hnl : (' ' :: 'e' :: 'n' :: 'd' :: ' ' :: (sfx ++ [' '])).contains '\n' = false := by
    simp only [List.contains_eq_any_beq, List.any_append, List.any_cons] at hn ⊢
    simp [hn]
  have hstrip : stripL (' ' :: 'e' :: 'n' :: 'd' :: ' ' :: (sfx ++ [' '])) =
      'e' :: 'n' :: 'd' :: rstripL (' ' :: (sfx ++ [' '])) := by
    show rstripL (lstripL _) = _
    have hl : lstripL (' ' :: 'e' :: 'n' :: 'd' :: ' ' :: (sfx ++ [' '])) =
        'e' :: 'n' :: 'd' :: ' ' :: (sfx ++ [' ']) := by
      simp [lstripL, List.dropWhile, pyIsSpace]
    rw [hl, rstripL_cons_nonspace _ _ (by decide), rstripL_cons_nonspace _ _ (by decide),
      rstripL_cons_nonspace _ _ (by decide)]
  have hop : (partitionSpace ('e' :: 'n' :: 'd' :: rstripL (' ' :: (sfx ++ [' '])))).1 =
      ['e', 'n', 'd'] :=
    partitionSpace_endTok _ (rstripL_cons_shape ' ' (sfx ++ [' ']))
  have hdrop0 : ((' ' :: 'e' :: 'n' :: 'd' :: ' ' :: sfx) ++ ' ' :: '%' :: '\x7d' :: rest).drop
      ((' ' :: 'e' :: 'n' :: 'd' :: ' ' :: sfx).length + 3) =
      (' ' :: '%' :: '\x7d' :: rest).drop 3 :=
    List.drop_append 3
  have hdrop : List.drop (sfx.length + 6 + 2)
      (' ' :: 'e' :: 'n' :: 'd' :: ' ' :: (sfx ++ ' ' :: '%' :: '\x7d' :: rest)) = rest := by
    simp only [List.cons_append, List.length_cons, List.drop_succ_cons, List.drop_zero] at hdrop0
    exact hdrop0
  simp only [parse, endDir, hfs]
  simp only [List.drop_zero, List.take_succ_cons, List.take_zero, List.drop_succ_cons,
    gt_iff_lt, Nat.lt_irrefl, if_false, hfind, htake, hnl, hstrip, hop, hdrop]
  simp only [intermediateParents]
  norm_num
  cases ib <;> rfl

/-- C9: a `{% end <suffix> %}` directive ignores whatever follows the
`end` operator (the code only looks at the partitioned operator token):
with any enclosing block open it returns the accumulated body to the
caller, closing exactly one nesting level and leaving exactly the input
after the directive — the same result as a bare `{% end %}` — and with no
block open it still fails with the extra-end error.  The suffix may be
any text not containing a `%\x7d` pair or a newline (which would end or
break the directive token itself). -/
theorem c9_end_suffix_ignored (sfx rest : List Char) (body : List Node) (fuel : Nat)
    (hs : noEndTok sfx = true) (hn : sfx.contains '\n' = false) :
    (∀ k, parse (fuel + 1) (endDir sfx rest) (some k) body = .ok body rest) ∧
    (∀ k, parse (fuel + 1) (endDir [] rest) (some k) body = .ok body rest) ∧
    parse (fuel + 1) (endDir sfx rest) none body = .err .extraEnd :=
  ⟨fun k => parse_endDir sfx rest body fuel (some k) hs hn,
   fun k => parse_endDir [] rest body fuel (some k) rfl rfl,
   parse_endDir sfx rest body fuel none hs hn⟩

/-- C9 witness: `{% end anything here %}` closes an `if` exactly like
`{% end %}` does, and is an error at top level. -/
theorem c9_end_suffix_ignored_witness :
    parse 1 (endDir "anything here".data "b".data) (some "if") [Node.text "a"] =
      .ok [Node.text "a"] "b".data ∧
    parse 1 (endDir [] "b".data) (some "if") [Node.text "a"] =
      .ok [Node.text "a"] "b".data ∧
    parse 1 (endDir "anything here".data "b".data) none [Node.text "a"] = .err .extraEnd :=
  ⟨(c9_end_suffix_ignored "anything here".data "b".data [Node.text "a"] 0 rfl rfl).1 "if",
   (c9_end_suffix_ignored "anything here".data "b".data [Node.text "a"] 0 rfl rfl).2.1 "if",
   (c9_end_suffix_ignored "anything here".data "b".data [Node.text "a"] 0 rfl rfl).2.2⟩
